import Mathlib

/-!
A verification development for the `conventional-emojis` commit-message tool
(`conventional_emojis/main.py`, `constants.py`, `exceptions.py`).

Strings are modelled as `List Char` (`Str`), matching Python's code-point
view of `str`.  Python dictionaries are modelled as association lists in
insertion order; `dict.get` is `alookup` (first binding wins) and
`dict.update` is `dictUpdate` (existing keys are overwritten in place, new
keys are appended, exactly as CPython preserves insertion order).

Calls into the Python standard library are embedded as follows:
* `str.strip()` is `strip` (ASCII whitespace; Python also strips some
  Unicode spaces, which no claim touches);
* `str.split("\n")` is `splitNl`;
* `re.match(BASE_PATTERN, title)` is `matchBase`, a direct operational
  model of the one fixed pattern `^(?P<type>\w+)(\((?P<scope>.+)\))?(?P<breaking>!)?:`
  used by the program, with Python's leftmost/greedy backtracking order.
  Titles are the first line of a `"\n"`-split, so they never contain a
  newline; `.` is therefore modelled as "any character".  `\w` is modelled
  as ASCII alphanumeric or underscore.
* `re.fullmatch(pattern, s)` on user-configured scope/combo patterns is an
  abstract oracle `fm : Str → Str → Bool` passed to the resolver: theorems
  quantify over it, and witnesses instantiate it (e.g. with literal
  equality, the semantics of `re.fullmatch` for metacharacter-free
  patterns).
* `str.format` is `pyFormat`, modelling templates whose replacement fields
  are simple keyword names: `{{`/`}}` escapes, a lone `}` or an
  unterminated `{` raise `ValueError`, an empty or all-digit field root
  raises `IndexError` (auto/positional field with no positional
  arguments), an unknown field root raises `KeyError`.  Conversion
  specifiers, format specs and attribute/index access after a known root
  are substituted as the plain value (their rendering is not modelled; no
  claim depends on it).
-/

set_option maxRecDepth 100000

/-- Python strings viewed as lists of code points. -/
abbrev Str := List Char

/-- A Lean string literal as a `Str`. -/
def lit (s : String) : Str := s.data

/-- Python `str.strip()` whitespace test (ASCII part). -/
def isSpace (c : Char) : Bool :=
  [' ', '\t', '\n', '\r', Char.ofNat 11, Char.ofNat 12].contains c

/-- Python `str.strip()`: drop whitespace from both ends. -/
def strip (l : Str) : Str :=
  ((l.dropWhile isSpace).reverse.dropWhile isSpace).reverse

/-- Python `\w` for ASCII: alphanumeric or underscore. -/
def isWordChar (c : Char) : Bool := c.isAlphanum || c = '_'

/-- Python `s.split("\n")`: split on newlines, keeping empty pieces;
`""` splits to `[""]`. -/
def splitNl : Str → List Str
  | [] => [[]]
  | c :: rest =>
    if c = '\n' then [] :: splitNl rest
    else
      match splitNl rest with
      | [] => [[c]]
      | s :: ss => (c :: s) :: ss

/-- First-binding association-list lookup: Python `dict.get` / `dict[k]`
on an insertion-ordered dictionary. -/
def alookup {β : Type} (k : Str) : List (Str × β) → Option β
  | [] => none
  | (k', v) :: rest => if k = k' then some v else alookup k rest

/-- Python `d.update(u)` on insertion-ordered dictionaries: keys of `d`
keep their position but take `u`'s value when `u` also binds them; keys of
`u` absent from `d` are appended in `u`'s order. -/
def dictUpdate {β : Type} (d u : List (Str × β)) : List (Str × β) :=
  (d.map fun kv =>
    match alookup kv.1 u with
    | some v' => (kv.1, v')
    | none => kv)
  ++ u.filter fun kv => (alookup kv.1 d).isNone

/-- A type/scope emoji table: `dict[str, str]` in insertion order. -/
abbrev Table := List (Str × Str)

/-- `constants.COMMIT_TYPES`: the built-in default type→emoji table. -/
def COMMIT_TYPES : Table :=
  [ (lit "feat", lit "✨"),
    (lit "fix", lit "🐛"),
    (lit "docs", lit "📝"),
    (lit "style", lit "💄"),
    (lit "refactor", lit "♻️"),
    (lit "perf", lit "⚡️"),
    (lit "test", lit "✅"),
    (lit "build", lit "🏗️"),
    (lit "ci", lit "👷"),
    (lit "config", lit "🔧"),
    (lit "chore", lit "🧹"),
    (lit "wip", lit "🚧") ]

/-- `constants.BREAKING`: the default breaking-change emoji. -/
def BREAKING : Str := lit "💥"

/-- `constants.COMMIT_MESSAGE_TEMPLATE`: the default message template. -/
def COMMIT_MESSAGE_TEMPLATE : Str :=
  lit "\x7bconventional_prefix\x7d \x7bbreaking_emoji\x7d\x7btype_emoji\x7d\x7bscope_emoji\x7d \x7bdescription\x7d\n\x7bbody\x7d"

/-- `main.CommitMessageDetails` (`conventionalPrefix` embeds the source
field `conventional_` `prefix`). -/
structure CommitMessageDetails where
  conventionalPrefix : Str
  description : Str
  body : Str
  commit_type : Str
  scope : Str
  breaking : Bool
deriving Repr, DecidableEq

/-- `main.Emojis`. -/
structure Emojis where
  type_emoji : Str
  scope_emoji : Str
  breaking_emoji : Str
deriving Repr, DecidableEq

/-- `main.Config`: the nested `[config]` block. -/
structure Config where
  breaking_emoji : Str
  commit_message_template : Str
deriving Repr, DecidableEq

/-- The default `Config()` instance. -/
def Config.default : Config :=
  { breaking_emoji := BREAKING, commit_message_template := COMMIT_MESSAGE_TEMPLATE }

/-- `main.ConventionalEmojisConfig`: a resolved configuration.  `scopes`
and `combos` are `None` when absent from the TOML; `dict`s are
insertion-ordered association lists. -/
structure ConventionalEmojisConfig where
  types : Table
  scopes : Option Table
  combos : Option (List (Str × Table))
  config : Config
deriving Repr, DecidableEq

/-- The four domain exceptions of `exceptions.py`, plus a constructor for
Python exceptions that escape the domain taxonomy (e.g. a `ValueError`
from `str.format`, which `update_commit_message` does not catch). -/
inductive FmtError where
  | keyError (name : Str)
  | singleClosingBrace
  | unterminatedField
  | indexError
deriving Repr, DecidableEq

inductive CEError where
  | nonConventionalCommit
  | noConventionalCommitTypeFound (msg : Str)
  | undefinedScope (msg : Str)
  | invalidCommitTemplate (msg : Str)
  | uncaughtFormatError (e : FmtError)
deriving Repr, DecidableEq

/-- `tryTail t j`: match `(?P<breaking>!)?:` at position `j` of `t`
(greedy: `!` is tried first).  Returns the breaking flag and the match
end. -/
def tryTail (t : Str) (j : Nat) : Option (Bool × Nat) :=
  if t.get? j = some '!' then
    if t.get? (j + 1) = some ':' then some (true, j + 2) else none
  else if t.get? j = some ':' then some (false, j + 1) else none

/-- Greedy backtracking search for the scope's closing parenthesis: the
largest `j' ≤ j` with `j' ≥ p + 2` (at least one scope character after
the `(` at position `p`) such that `t` has `)` at `j'` and
`(?P<breaking>!)?:` matches right after. -/
def findClose (t : Str) (p : Nat) : Nat → Option Nat
  | 0 => none
  | j + 1 =>
    if j + 1 < p + 2 then none
    else if t.get? (j + 1) = some ')' ∧ (tryTail t (j + 2)).isSome then some (j + 1)
    else findClose t p j

/-- The result of `re.match(BASE_PATTERN, title)`: named groups and the
overall match end. -/
structure BaseMatch where
  gtype : Str
  gscope : Option Str
  gbreaking : Bool
  mEnd : Nat
deriving Repr, DecidableEq

/-- The part of `BASE_PATTERN` after `\w+`, matched at position `p` (the
end of the maximal word-character run). -/
def matchBaseAt (t : Str) (p : Nat) : Option BaseMatch :=
  if p = 0 then none
  else
    match (if t.get? p = some '(' then findClose t p (t.length - 1) else none) with
    | some i =>
      match tryTail t (i + 1) with
      | some (br, e) => some ⟨t.take p, some ((t.take i).drop (p + 1)), br, e⟩
      | none => none
    | none =>
      match tryTail t p with
      | some (br, e) => some ⟨t.take p, none, br, e⟩
      | none => none

/-- `re.match(constants.BASE_PATTERN, title)` for newline-free titles:
`^(?P<type>\w+)(\((?P<scope>.+)\))?(?P<breaking>!)?:` with Python's
greedy backtracking (`\w+` maximal — shortening it can never help since
`(`, `!`, `:` are not word characters — and `.+` longest-first). -/
def matchBase (t : Str) : Option BaseMatch :=
  matchBaseAt t (t.takeWhile isWordChar).length

deriving instance DecidableEq for Except

/-- `main.extract_commit_details`. -/
def extract_commit_details (commit_message : Str) : Except CEError CommitMessageDetails :=
  let lines := splitNl commit_message
  let title := lines.headD []
  match matchBase title with
  | none => .error .nonConventionalCommit
  | some m =>
    .ok { conventionalPrefix := strip (title.take m.mEnd),
          description := strip (title.drop m.mEnd),
          body := strip (List.intercalate (lit "\n") (lines.drop 1)),
          commit_type := m.gtype,
          scope := m.gscope.getD [],
          breaking := m.gbreaking }

/-- Lexicographic (code-point) order on strings: Python's `str` `<`/`sorted`. -/
def lexLe : Str → Str → Bool
  | [], _ => true
  | _ :: _, [] => false
  | a :: as, b :: bs => if a = b then lexLe as bs else decide (a < b)

/-- Insert into a `lexLe`-sorted list. -/
def insertSorted (x : Str) : List Str → List Str
  | [] => [x]
  | y :: ys => if lexLe x y then x :: y :: ys else y :: insertSorted x ys

/-- Python `sorted` on a list of strings (insertion sort; Python's sort is
stable, and so is this one). -/
def sortStrs : List Str → List Str
  | [] => []
  | x :: xs => insertSorted x (sortStrs xs)

/-- The `NoConventionalCommitTypeFoundError` message built in `get_emojis`:
lists all available type keys, sorted. -/
def noTypeMsg (ct : Str) (types : Table) : Str :=
  lit "Commit type '" ++ ct ++ lit "' does not have a corresponding emoji.\nAvailable types are: "
    ++ List.intercalate (lit ", ") (sortStrs (types.map Prod.fst))

/-- The `UndefinedScopeError` message built in `get_emojis`. -/
def scopeMsg (scope : Str) : Str :=
  lit "Scope '" ++ scope ++ lit "' does not match any defined patterns in the configuration."

/-- First-match-wins scan of a `(pattern, emoji)` table: the `for` loops in
`get_emojis`, with `fm` standing for `re.fullmatch` (does this pattern
full-match this string?). -/
def findMatch (fm : Str → Str → Bool) : Table → Str → Option Str
  | [], _ => none
  | (pat, emoji) :: rest, s => if fm pat s then some emoji else findMatch fm rest s

/-- The combo check at the top of `get_emojis`: `mappings.combos` must be
truthy (not `None` and non-empty), the scope truthy (non-empty), the
commit type present in `combos`; then the first pattern of that entry that
full-matches the stripped scope yields its emoji. -/
def comboEmoji (fm : Str → Str → Bool) (details : CommitMessageDetails)
    (mappings : ConventionalEmojisConfig) : Option Str :=
  match mappings.combos with
  | none => none
  | some combos =>
    if combos = [] then none
    else if details.scope = [] then none
    else
      match alookup details.commit_type combos with
      | none => none
      | some combo_patterns => findMatch fm combo_patterns (strip details.scope)

/-- `main.get_emojis`. -/
def get_emojis (fm : Str → Str → Bool) (details : CommitMessageDetails)
    (mappings : ConventionalEmojisConfig)
    (enforce_scope_patterns disable_breaking_emoji : Bool) : Except CEError Emojis :=
  let breaking_emoji :=
    if details.breaking && !disable_breaking_emoji then mappings.config.breaking_emoji else []
  match comboEmoji fm details mappings with
  | some emoji => .ok ⟨emoji, [], breaking_emoji⟩
  | none =>
    match alookup details.commit_type mappings.types with
    | none => .error (.noConventionalCommitTypeFound (noTypeMsg details.commit_type mappings.types))
    | some type_emoji =>
      if details.scope ≠ [] ∧ mappings.scopes.isSome then
        match findMatch fm (mappings.scopes.getD []) (strip details.scope) with
        | some scope_emoji => .ok ⟨type_emoji, scope_emoji, breaking_emoji⟩
        | none =>
          if enforce_scope_patterns then .error (.undefinedScope (scopeMsg details.scope))
          else .ok ⟨type_emoji, [], breaking_emoji⟩
      else .ok ⟨type_emoji, [], breaking_emoji⟩

/-- A decoded TOML configuration as `msgspec.toml.decode` yields it, with
msgspec's field defaults already applied: a missing `types` key decodes to
a copy of `COMMIT_TYPES`, a missing `[config]` block to `Config.default`,
missing `scopes`/`combos` to `None`.  (TOML of the wrong shape or with
unknown keys raises a `ValidationError` before `from_toml`'s merging runs,
so it never reaches the code modelled here.) -/
structure RawConfig where
  types : Table
  scopes : Option Table
  combos : Option (List (Str × Table))
  config : Config
deriving Repr, DecidableEq

/-- `ConventionalEmojisConfig.from_toml`, from decoded content (`none`
models falsy/empty `toml_content`). -/
def from_toml (toml_content : Option RawConfig) (allow_types_as_scopes : Bool)
    (template_override : Option Str) (default_commit_types : Table) :
    ConventionalEmojisConfig :=
  let inst : ConventionalEmojisConfig :=
    match toml_content with
    | none =>
      { types := default_commit_types, scopes := none, combos := none,
        config := Config.default }
    | some raw =>
      { types := dictUpdate default_commit_types raw.types,
        scopes := raw.scopes, combos := raw.combos, config := raw.config }
  let inst2 :=
    match template_override with
    | some t => { inst with config := { inst.config with commit_message_template := t } }
    | none => inst
  match inst2.scopes with
  | some sc =>
    if allow_types_as_scopes then { inst2 with scopes := some (dictUpdate sc inst2.types) }
    else inst2
  | none => inst2

/-- The user-supplied types table of decoded TOML content: empty when no
content was supplied. -/
def userTypesOf : Option RawConfig → Table
  | none => []
  | some raw => raw.types

/-- Prepend a character to a formatting result. -/
def consFmt (c : Char) : Except FmtError Str → Except FmtError Str
  | .ok s => .ok (c :: s)
  | .error e => .error e

/-- Prepend a substituted value to a formatting result. -/
def appendFmt (v : Str) : Except FmtError Str → Except FmtError Str
  | .ok s => .ok (v ++ s)
  | .error e => .error e

/-- The root of a replacement field: the argument name before any
conversion (`!`), format spec (`:`), attribute (`.`) or index (`[`). -/
def fieldRoot (name : Str) : Str :=
  name.takeWhile fun c => !(c = '!' || c = ':' || c = '.' || c = '[')

/-- Fuel-driven core of `pyFormat`; fuel `tpl.length` always suffices
since every step consumes at least one character. -/
def pyFormatF (get : Str → Option Str) : Nat → Str → Except FmtError Str
  | _, [] => .ok []
  | 0, _ :: _ => .error .unterminatedField
  | fuel + 1, '\x7b' :: '\x7b' :: rest => consFmt '\x7b' (pyFormatF get fuel rest)
  | fuel + 1, '\x7d' :: '\x7d' :: rest => consFmt '\x7d' (pyFormatF get fuel rest)
  | _ + 1, '\x7d' :: _ => .error .singleClosingBrace
  | fuel + 1, '\x7b' :: rest =>
    let name := rest.takeWhile (· ≠ '\x7d')
    match rest.dropWhile (· ≠ '\x7d') with
    | [] => .error .unterminatedField
    | _ :: rest2 =>
      let root := fieldRoot name
      if root = [] ∨ root.all Char.isDigit then .error .indexError
      else
        match get root with
        | none => .error (.keyError root)
        | some v => appendFmt v (pyFormatF get fuel rest2)
  | fuel + 1, c :: rest => consFmt c (pyFormatF get fuel rest)

/-- Python `template.format(conventional_prefix=..., ...)` restricted to
simple keyword replacement fields (see the header comment): substitutes
via `get`, raises `KeyError` for an unknown field root, `ValueError` for
stray or unterminated braces, `IndexError` for auto-numbered or
positional fields. -/
def pyFormat (get : Str → Option Str) (tpl : Str) : Except FmtError Str :=
  pyFormatF get tpl.length tpl

/-- The keyword arguments passed to `.format` in `update_commit_message`. -/
def formatFields (details : CommitMessageDetails) (emojis : Emojis) (name : Str) : Option Str :=
  if name = lit "conventional_prefix" then some details.conventionalPrefix
  else if name = lit "description" then some details.description
  else if name = lit "breaking_emoji" then some emojis.breaking_emoji
  else if name = lit "type_emoji" then some emojis.type_emoji
  else if name = lit "scope_emoji" then some emojis.scope_emoji
  else if name = lit "body" then some details.body
  else none

/-- Does a pipeline result carry an `InvalidCommitTemplateError`? -/
def isInvalidCommitTemplateError : Except CEError Str → Bool
  | .error (.invalidCommitTemplate _) => true
  | _ => false

/-- The `InvalidCommitTemplateError` message built in `update_commit_message`. -/
def invalidTplMsg (tpl : Str) : Str :=
  lit "Invalid commit template " ++ tpl ++
    lit ".\n        Make sure your template contains only these fields and no typos:\n        conventional_prefix, description, breaking_emoji, type_emoji, scope_emoji, body."

/-- `main.update_commit_message`: only `KeyError` is caught and converted
to `InvalidCommitTemplateError`; any other formatting exception escapes. -/
def update_commit_message (details : CommitMessageDetails) (emojis : Emojis)
    (commit_template : Str) : Except CEError Str :=
  match pyFormat (formatFields details emojis) commit_template with
  | .ok s => .ok s
  | .error (.keyError _) => .error (.invalidCommitTemplate (invalidTplMsg commit_template))
  | .error e => .error (.uncaughtFormatError e)

/-- `main.process_commit_message`. -/
def process_commit_message (fm : Str → Str → Bool) (commit_message : Str)
    (config : ConventionalEmojisConfig)
    (enforce_scope_patterns disable_breaking_emoji : Bool) : Except CEError Str :=
  match extract_commit_details commit_message with
  | .error e => .error e
  | .ok details =>
    match get_emojis fm details config enforce_scope_patterns disable_breaking_emoji with
    | .error e => .error e
    | .ok emojis =>
      match update_commit_message details emojis config.config.commit_message_template with
      | .error e => .error e
      | .ok s => .ok (strip s)

/-- `main.process_conventional_commit`, as a pure function from the commit
file's content (and decoded configuration and flags) to the pair
(exit code, file content after the run).  On success the file is
rewritten with the processed message and the exit code is 0; every raised
error — the four domain errors and the generic `except Exception` — is
caught, leaves the file untouched and exits 1. -/
def process_conventional_commit (fm : Str → Str → Bool) (file_content : Str)
    (toml_content : Option RawConfig) (allow_types_as_scopes : Bool)
    (template : Option Str)
    (enforce_scope_patterns disable_breaking_emoji : Bool) : Nat × Str :=
  let config := from_toml toml_content allow_types_as_scopes template COMMIT_TYPES
  let commit_message := strip file_content
  match process_commit_message fm commit_message config
      enforce_scope_patterns disable_breaking_emoji with
  | .ok processed => (0, processed)
  | .error _ => (1, file_content)

/-- A `re.fullmatch` oracle for metacharacter-free patterns: such a
pattern full-matches exactly the string equal to it. -/
def eqFm : Str → Str → Bool := fun p s => p == s

/-- The `basic_toml` fixture of the repository's tests, as decoded
content (the chore combo patterns are omitted; witnesses below use only
literal patterns, where `eqFm` is the exact `re.fullmatch` semantics). -/
def testRaw : RawConfig :=
  { types := [(lit "feat", lit "🔥"), (lit "fix", lit "🙌"), (lit "docs", lit "📖"),
              (lit "chore", lit "🏡")],
    scopes := some [(lit "api", lit "🔌"), (lit "ui", lit "🎨")],
    combos := some [(lit "feat", [(lit "api", lit "🚀")])],
    config := { breaking_emoji := lit "🍌",
                commit_message_template := lit "\x7bbreaking_emoji\x7d\x7btype_emoji\x7d\x7bscope_emoji\x7d \x7bconventional_prefix\x7d \x7bdescription\x7d\n\n\x7bbody\x7d" } }

/-! ## Association-list (Python dict) lemmas -/

theorem alookup_append_some {β : Type} {k : Str} {l1 l2 : List (Str × β)} {v : β}
    (h : alookup k l1 = some v) : alookup k (l1 ++ l2) = some v := by
  induction l1 with
  | nil => simp [alookup] at h
  | cons a l ih =>
    obtain ⟨k', w⟩ := a
    by_cases hk : k = k' <;> simp [alookup, hk] at h ⊢
    · exact h
    · exact ih h

theorem alookup_append_none {β : Type} {k : Str} {l1 : List (Str × β)} (l2 : List (Str × β))
    (h : alookup k l1 = none) : alookup k (l1 ++ l2) = alookup k l2 := by
  induction l1 with
  | nil => simp
  | cons a l ih =>
    obtain ⟨k', w⟩ := a
    by_cases hk : k = k' <;> simp [alookup, hk] at h ⊢
    exact ih h

/-- Lookup in the in-place-updated part of `dictUpdate`. -/
theorem alookup_mapUpd {β : Type} (k : Str) (d u : List (Str × β)) :
    alookup k (d.map fun kv =>
        match alookup kv.1 u with
        | some v' => (kv.1, v')
        | none => kv) =
      match alookup k d with
      | none => none
      | some w =>
        match alookup k u with
        | some v => some v
        | none => some w := by
  induction d with
  | nil => simp [alookup]
  | cons a d ih =>
    obtain ⟨k', w⟩ := a
    by_cases hk : k = k'
    · subst hk
      cases hu : alookup k u <;> simp [alookup, hu]
    · cases hu : alookup k' u <;> simp [alookup, hk, hu, ih]

theorem alookup_filterKey_true {β : Type} {k : Str} (u : List (Str × β)) {p : Str → Bool}
    (hk : p k = true) : alookup k (u.filter fun kv => p kv.1) = alookup k u := by
  induction u with
  | nil => simp
  | cons a u ih =>
    obtain ⟨k', w⟩ := a
    by_cases hk' : k = k'
    · subst hk'; simp [List.filter, hk, alookup]
    · cases hp : p k' <;> simp [List.filter, hp, alookup, hk', ih]

theorem alookup_filterKey_false {β : Type} {k : Str} (u : List (Str × β)) {p : Str → Bool}
    (hk : p k = false) : alookup k (u.filter fun kv => p kv.1) = none := by
  induction u with
  | nil => simp [alookup]
  | cons a u ih =>
    obtain ⟨k', w⟩ := a
    by_cases hk' : k = k'
    · subst hk'; simp [List.filter, hk, ih]
    · cases hp : p k' <;> simp [List.filter, hp, alookup, hk', ih]

/-- `dictUpdate d u` looks up to `u`'s binding when `u` binds the key:
user entries win on key collision. -/
theorem alookup_dictUpdate_some {β : Type} {k : Str} {d u : List (Str × β)} {v : β}
    (h : alookup k u = some v) : alookup k (dictUpdate d u) = some v := by
  unfold dictUpdate
  cases hd : alookup k d with
  | some w =>
    exact alookup_append_some (by rw [alookup_mapUpd, hd, h])
  | none =>
    rw [alookup_append_none _ (by rw [alookup_mapUpd, hd])]
    rw [alookup_filterKey_true (p := fun key => (alookup key d).isNone) u (by simp [hd])]
    exact h

/-- `dictUpdate d u` falls back to `d` when `u` does not bind the key. -/
theorem alookup_dictUpdate_none {β : Type} {k : Str} {d u : List (Str × β)}
    (h : alookup k u = none) : alookup k (dictUpdate d u) = alookup k d := by
  unfold dictUpdate
  cases hd : alookup k d with
  | some w =>
    exact alookup_append_some (by rw [alookup_mapUpd, hd, h])
  | none =>
    rw [alookup_append_none _ (by rw [alookup_mapUpd, hd])]
    rw [alookup_filterKey_true (p := fun key => (alookup key d).isNone) u (by simp [hd])]
    exact h

theorem dictUpdate_nil_right {β : Type} (d : List (Str × β)) : dictUpdate d [] = d := by
  unfold dictUpdate
  simp [alookup]

/-! ## Configuration resolution -/

/-- Only the initial merge determines the `types` field of `from_toml`'s
result: neither the template override nor the scopes extension touch it. -/
theorem from_toml_types (toml : Option RawConfig) (ats : Bool) (tov : Option Str) (d : Table) :
    (from_toml toml ats tov d).types =
      match toml with
      | none => d
      | some raw => dictUpdate d raw.types := by
  cases toml with
  | none => cases tov <;> simp [from_toml]
  | some raw =>
    obtain ⟨tys, sc, cmb, cfg⟩ := raw
    cases sc <;> cases tov <;> cases ats <;> simp [from_toml]

/-- C4: for every decoded configuration content (including absent/empty),
the resolved `types` mapping is the built-in default table — exactly the
twelve keys feat, fix, docs, style, refactor, perf, test, build, ci,
config, chore, wip — merged with the user-supplied types table, user
entries winning on key collision. -/
theorem claim_C4 (toml : Option RawConfig) (ats : Bool) (tov : Option Str) :
    (from_toml toml ats tov COMMIT_TYPES).types = dictUpdate COMMIT_TYPES (userTypesOf toml)
    ∧ (∀ k v, alookup k (userTypesOf toml) = some v →
        alookup k (from_toml toml ats tov COMMIT_TYPES).types = some v)
    ∧ (∀ k, alookup k (userTypesOf toml) = none →
        alookup k (from_toml toml ats tov COMMIT_TYPES).types = alookup k COMMIT_TYPES)
    ∧ COMMIT_TYPES.map Prod.fst = [lit "feat", lit "fix", lit "docs", lit "style",
        lit "refactor", lit "perf", lit "test", lit "build", lit "ci", lit "config",
        lit "chore", lit "wip"] := by
  have htypes : (from_toml toml ats tov COMMIT_TYPES).types =
      dictUpdate COMMIT_TYPES (userTypesOf toml) := by
    rw [from_toml_types]
    cases toml <;> simp [userTypesOf, dictUpdate_nil_right]
  refine ⟨htypes, fun k v h => ?_, fun k h => ?_, by decide⟩
  · rw [htypes]; exact alookup_dictUpdate_some h
  · rw [htypes]; exact alookup_dictUpdate_none h

/-- C4 witness: with the test configuration, the user override wins for
`feat` and the default survives for `wip`. -/
theorem claim_C4_witness :
    alookup (lit "feat") (from_toml (some testRaw) true none COMMIT_TYPES).types =
      some (lit "🔥")
    ∧ alookup (lit "wip") (from_toml (some testRaw) true none COMMIT_TYPES).types =
      some (lit "🚧") := by
  constructor
  · exact (claim_C4 (some testRaw) true none).2.1 (lit "feat") (lit "🔥") (by decide)
  · exact ((claim_C4 (some testRaw) true none).2.2.1 (lit "wip") (by decide)).trans (by decide)

/-- C5: with `allow_types_as_scopes` true and a `scopes` table defined,
the resolver applies `scopes.update(types)`: the final scopes table is
`dictUpdate scopes types`, so every key of the merged types table occurs
there with the type's emoji — a type key beats a same-named explicit
scope entry — and keys bound only in `scopes` keep their scope emoji. -/
theorem claim_C5 (tys sc : Table) (cmb : Option (List (Str × Table))) (cfg : Config)
    (tov : Option Str) :
    (from_toml (some ⟨tys, some sc, cmb, cfg⟩) true tov COMMIT_TYPES).scopes =
      some (dictUpdate sc (from_toml (some ⟨tys, some sc, cmb, cfg⟩) true tov COMMIT_TYPES).types)
    ∧ (∀ k v,
        alookup k (from_toml (some ⟨tys, some sc, cmb, cfg⟩) true tov COMMIT_TYPES).types = some v →
        alookup k (dictUpdate sc (from_toml (some ⟨tys, some sc, cmb, cfg⟩) true tov COMMIT_TYPES).types) = some v)
    ∧ (∀ k,
        alookup k (from_toml (some ⟨tys, some sc, cmb, cfg⟩) true tov COMMIT_TYPES).types = none →
        alookup k (dictUpdate sc (from_toml (some ⟨tys, some sc, cmb, cfg⟩) true tov COMMIT_TYPES).types) = alookup k sc) := by
  refine ⟨?_, fun k v h => alookup_dictUpdate_some h, fun k h => alookup_dictUpdate_none h⟩
  cases tov <;> simp [from_toml, from_toml_types]

/-- C5 witness: with the test configuration the type key `feat` overwrites
nothing in scopes but is added with the merged type emoji, and the
explicit scope `api` (not a type key) keeps its scope emoji. -/
theorem claim_C5_witness :
    (from_toml (some testRaw) true none COMMIT_TYPES).scopes =
      some (dictUpdate [(lit "api", lit "🔌"), (lit "ui", lit "🎨")]
        (from_toml (some testRaw) true none COMMIT_TYPES).types)
    ∧ alookup (lit "feat") (dictUpdate [(lit "api", lit "🔌"), (lit "ui", lit "🎨")]
        (from_toml (some testRaw) true none COMMIT_TYPES).types) = some (lit "🔥") := by
  have h := claim_C5 testRaw.types [(lit "api", lit "🔌"), (lit "ui", lit "🎨")]
    testRaw.combos testRaw.config none
  exact ⟨h.1, h.2.1 (lit "feat") (lit "🔥") (by decide)⟩

/-! ## Sorting lemmas (Python `sorted` on type keys) -/

theorem lexLe_total : ∀ a b : Str, lexLe a b = true ∨ lexLe b a = true
  | [], _ => Or.inl rfl
  | _ :: _, [] => Or.inr rfl
  | a :: as, b :: bs => by
    by_cases hab : a = b
    · subst hab
      rcases lexLe_total as bs with h | h
      · left; simpa [lexLe] using h
      · right; simpa [lexLe] using h
    · rcases lt_trichotomy a b with h | h | h
      · left; simp [lexLe, hab, h]
      · exact absurd h hab
      · right; simp [lexLe, Ne.symm hab, h]

theorem lexLe_trans : ∀ {a b c : Str}, lexLe a b = true → lexLe b c = true → lexLe a c = true
  | [], _, _, _, _ => rfl
  | _ :: _, [], _, hab, _ => by simp [lexLe] at hab
  | _ :: _, _ :: _, [], _, hbc => by simp [lexLe] at hbc
  | a :: as, b :: bs, c :: cs, hab, hbc => by
    by_cases h1 : a = b <;> by_cases h2 : b = c
    · subst h1; subst h2
      simp only [lexLe, if_pos rfl] at hab hbc ⊢
      exact lexLe_trans hab hbc
    · subst h1
      simpa [lexLe, h2] using hbc
    · subst h2
      simpa [lexLe, h1] using hab
    · simp only [lexLe, if_neg h1, decide_eq_true_eq] at hab
      simp only [lexLe, if_neg h2, decide_eq_true_eq] at hbc
      have hac : a < c := lt_trans hab hbc
      simp [lexLe, ne_of_lt hac, hac]

theorem perm_insertSorted (x : Str) (l : List Str) : (insertSorted x l).Perm (x :: l) := by
  induction l with
  | nil => exact List.Perm.refl _
  | cons y ys ih =>
    by_cases h : lexLe x y
    · simp [insertSorted, h]
    · simp only [insertSorted, if_neg h]
      exact (ih.cons y).trans (List.Perm.swap x y ys)

theorem perm_sortStrs (l : List Str) : (sortStrs l).Perm l := by
  induction l with
  | nil => exact List.Perm.refl _
  | cons x xs ih =>
    exact (perm_insertSorted x (sortStrs xs)).trans (ih.cons x)

theorem pairwise_insertSorted {x : Str} {l : List Str}
    (hl : List.Pairwise (fun a b => lexLe a b = true) l) :
    List.Pairwise (fun a b => lexLe a b = true) (insertSorted x l) := by
  induction l with
  | nil => simp [insertSorted]
  | cons y ys ih =>
    rcases List.pairwise_cons.mp hl with ⟨hy, hys⟩
    by_cases h : lexLe x y
    · simp only [insertSorted, if_pos h]
      refine List.pairwise_cons.mpr ⟨?_, hl⟩
      intro z hz
      rcases List.mem_cons.mp hz with rfl | hz
      · exact h
      · exact lexLe_trans h (hy z hz)
    · have hyx : lexLe y x = true := (lexLe_total x y).resolve_left (by simpa using h)
      simp only [insertSorted, if_neg h]
      refine List.pairwise_cons.mpr ⟨?_, ih hys⟩
      intro z hz
      rcases List.mem_cons.mp ((perm_insertSorted x ys).mem_iff.mp hz) with rfl | hz
      · exact hyx
      · exact hy z hz

theorem pairwise_sortStrs (l : List Str) :
    List.Pairwise (fun a b => lexLe a b = true) (sortStrs l) := by
  induction l with
  | nil => exact List.Pairwise.nil
  | cons x xs ih => exact pairwise_insertSorted ih

/-! ## Emoji-resolver claims -/

/-- C1: whenever `combos` has an entry for the commit type, the scope is
non-empty, and some pattern of that entry full-matches the stripped scope
(`findMatch` is precisely the in-insertion-order first-match loop), the
resolver returns that combo's emoji as `type_emoji` with an empty
`scope_emoji`, for every `scopes` table whatsoever — the scope lookup is
skipped, so a matching combo takes precedence over any matching plain
scope pattern. -/
theorem claim_C1 (fm : Str → Str → Bool) (details : CommitMessageDetails)
    (mappings : ConventionalEmojisConfig) (esp dbe : Bool)
    (cs : List (Str × Table)) (tbl : Table) (e : Str)
    (hcombos : mappings.combos = some cs)
    (hsc : details.scope ≠ [])
    (hlk : alookup details.commit_type cs = some tbl)
    (hfm : findMatch fm tbl (strip details.scope) = some e) :
    get_emojis fm details mappings esp dbe =
      .ok ⟨e, [], if details.breaking && !dbe then mappings.config.breaking_emoji else []⟩ := by
  have hne : cs ≠ [] := by rintro rfl; simp [alookup] at hlk
  unfold get_emojis comboEmoji
  rw [hcombos]
  simp [hne, hsc, hlk, hfm]

/-- C1 witness: Scenario C — `combos.feat.api = 🚀`, commit `feat(api)`,
even though the scopes table also matches `api`. -/
theorem claim_C1_witness :
    get_emojis eqFm ⟨lit "feat(api):", lit "x", [], lit "feat", lit "api", false⟩
      (from_toml (some testRaw) true none COMMIT_TYPES) false false =
      .ok ⟨lit "🚀", [], []⟩ :=
  claim_C1 eqFm ⟨lit "feat(api):", lit "x", [], lit "feat", lit "api", false⟩
    (from_toml (some testRaw) true none COMMIT_TYPES) false false
    [(lit "feat", [(lit "api", lit "🚀")])] [(lit "api", lit "🚀")] (lit "🚀")
    (by decide) (by decide) (by decide) (by decide)

/-- C2 counterexample: the claim quantifies over *every* configuration,
but when `scopes` is `None` the scope-lookup block is skipped entirely:
with the default configuration (no scopes defined), an oracle under which
no pattern matches anything, a non-empty scope and
`enforce_scope_patterns = true`, resolution succeeds instead of failing
with `UndefinedScope`. -/
theorem claim_C2_counterexample :
    get_emojis (fun _ _ => false) ⟨lit "feat(api):", lit "x", [], lit "feat", lit "api", false⟩
      (from_toml none true none COMMIT_TYPES) true false =
      .ok ⟨lit "✨", [], []⟩ := by decide

/-- C2 as amended: restricted to configurations whose `scopes` table is
defined, whose combo step does not fire, and whose types table contains
the commit type, an unmatched non-empty scope fails with `UndefinedScope`
under enforcement and succeeds with an empty scope emoji without it. -/
theorem claim_C2 (fm : Str → Str → Bool) (details : CommitMessageDetails)
    (mappings : ConventionalEmojisConfig) (sct : Table) (te : Str) (dbe : Bool)
    (hsc : details.scope ≠ [])
    (hscopes : mappings.scopes = some sct)
    (hcombo : comboEmoji fm details mappings = none)
    (hty : alookup details.commit_type mappings.types = some te)
    (hnom : findMatch fm sct (strip details.scope) = none) :
    get_emojis fm details mappings true dbe = .error (.undefinedScope (scopeMsg details.scope))
    ∧ get_emojis fm details mappings false dbe =
        .ok ⟨te, [], if details.breaking && !dbe then mappings.config.breaking_emoji else []⟩ := by
  constructor <;>
  · unfold get_emojis
    rw [hcombo, hty]
    simp [hsc, hscopes, hnom]

/-- C2 witness: with the test configuration, scope `zzz` matches no
pattern; enforcement fails with `UndefinedScope`, no enforcement succeeds
with empty scope emoji. -/
theorem claim_C2_witness :
    get_emojis eqFm ⟨lit "feat(zzz):", lit "x", [], lit "feat", lit "zzz", false⟩
      (from_toml (some testRaw) true none COMMIT_TYPES) true false =
      .error (.undefinedScope (scopeMsg (lit "zzz")))
    ∧ get_emojis eqFm ⟨lit "feat(zzz):", lit "x", [], lit "feat", lit "zzz", false⟩
      (from_toml (some testRaw) true none COMMIT_TYPES) false false =
      .ok ⟨lit "🔥", [], []⟩ :=
  claim_C2 eqFm ⟨lit "feat(zzz):", lit "x", [], lit "feat", lit "zzz", false⟩
    (from_toml (some testRaw) true none COMMIT_TYPES)
    (dictUpdate [(lit "api", lit "🔌"), (lit "ui", lit "🎨")]
      (from_toml (some testRaw) true none COMMIT_TYPES).types)
    (lit "🔥") false
    (by decide) (by decide) (by decide) (by decide) (by decide)

/-- C7: when the combo step does not fire and the commit type is absent
from the resolved types mapping, resolution fails with
`NoConventionalCommitTypeFound`, whose message (`noTypeMsg`) enumerates
`sorted(types.keys())`: a permutation of all available type keys, in
lexicographically sorted order. -/
theorem claim_C7 (fm : Str → Str → Bool) (details : CommitMessageDetails)
    (mappings : ConventionalEmojisConfig) (esp dbe : Bool)
    (hcombo : comboEmoji fm details mappings = none)
    (hty : alookup details.commit_type mappings.types = none) :
    get_emojis fm details mappings esp dbe =
      .error (.noConventionalCommitTypeFound (noTypeMsg details.commit_type mappings.types))
    ∧ (sortStrs (mappings.types.map Prod.fst)).Perm (mappings.types.map Prod.fst)
    ∧ List.Pairwise (fun a b => lexLe a b = true) (sortStrs (mappings.types.map Prod.fst)) := by
  refine ⟨?_, perm_sortStrs _, pairwise_sortStrs _⟩
  unfold get_emojis
  rw [hcombo, hty]

/-- C7 witness: Scenario D — `oops: x` with the default configuration;
the message lists the twelve default type keys in sorted order. -/
theorem claim_C7_witness :
    get_emojis eqFm ⟨lit "oops:", lit "x", [], lit "oops", [], false⟩
      (from_toml none true none COMMIT_TYPES) false false =
      .error (.noConventionalCommitTypeFound (lit "Commit type 'oops' does not have a corresponding emoji.\nAvailable types are: build, chore, ci, config, docs, feat, fix, perf, refactor, style, test, wip")) :=
  ((claim_C7 eqFm ⟨lit "oops:", lit "x", [], lit "oops", [], false⟩
    (from_toml none true none COMMIT_TYPES) false false (by decide) (by decide)).1).trans
    (by decide)

/-- C10: a matching combo bypasses the type-table membership check — even
when the commit type is absent from `types`, a combo entry for it whose
pattern full-matches the non-empty stripped scope makes resolution
succeed with the combo's emoji, and `NoConventionalCommitTypeFound` is
never raised. -/
theorem claim_C10 (fm : Str → Str → Bool) (details : CommitMessageDetails)
    (mappings : ConventionalEmojisConfig) (esp dbe : Bool)
    (cs : List (Str × Table)) (tbl : Table) (e : Str)
    (hcombos : mappings.combos = some cs)
    (hsc : details.scope ≠ [])
    (hlk : alookup details.commit_type cs = some tbl)
    (hfm : findMatch fm tbl (strip details.scope) = some e)
    (hty : alookup details.commit_type mappings.types = none) :
    get_emojis fm details mappings esp dbe =
      .ok ⟨e, [], if details.breaking && !dbe then mappings.config.breaking_emoji else []⟩
    ∧ ∀ m, get_emojis fm details mappings esp dbe ≠
        .error (.noConventionalCommitTypeFound m) := by
  have hne : cs ≠ [] := by rintro rfl; simp [alookup] at hlk
  have hok : get_emojis fm details mappings esp dbe =
      .ok ⟨e, [], if details.breaking && !dbe then mappings.config.breaking_emoji else []⟩ := by
    unfold get_emojis comboEmoji
    rw [hcombos]
    simp [hne, hsc, hlk, hfm]
  exact ⟨hok, fun m h => by rw [hok] at h; exact Except.noConfusion h⟩

/-- C10 witness: commit type `custom` is not in the default types table,
yet `combos.custom.api` resolves `custom(api)` successfully. -/
theorem claim_C10_witness :
    get_emojis eqFm ⟨lit "custom(api):", lit "x", [], lit "custom", lit "api", false⟩
      ⟨COMMIT_TYPES, none, some [(lit "custom", [(lit "api", lit "🚀")])], Config.default⟩
      false false = .ok ⟨lit "🚀", [], []⟩ :=
  (claim_C10 eqFm ⟨lit "custom(api):", lit "x", [], lit "custom", lit "api", false⟩
    ⟨COMMIT_TYPES, none, some [(lit "custom", [(lit "api", lit "🚀")])], Config.default⟩
    false false
    [(lit "custom", [(lit "api", lit "🚀")])] [(lit "api", lit "🚀")] (lit "🚀")
    (by decide) (by decide) (by decide) (by decide) (by decide)).1

/-! ## Renderer and pipeline claims -/

/-- C8 counterexample: a malformed template — a lone `\x7b` — does not
fail with `InvalidCommitTemplate`: `str.format` raises `ValueError`,
`update_commit_message` catches only `KeyError`, so the error escapes the
domain taxonomy. -/
theorem claim_C8_counterexample :
    update_commit_message ⟨lit "feat(api):", lit "test", [], lit "feat", lit "api", false⟩
      ⟨lit "🔥", lit "🔌", []⟩ (lit "\x7b") =
      .error (.uncaughtFormatError .unterminatedField)
    ∧ isInvalidCommitTemplateError
        (update_commit_message ⟨lit "feat(api):", lit "test", [], lit "feat", lit "api", false⟩
          ⟨lit "🔥", lit "🔌", []⟩ (lit "\x7b")) = false := by decide

/-- C8 as amended: the renderer substitutes the six placeholders
`conventional_prefix`, `description`, `breaking_emoji`, `type_emoji`,
`scope_emoji`, `body` with their values (shown on the default template,
which uses all of them), and fails with `InvalidCommitTemplate` exactly
when `str.format` raises `KeyError`, i.e. when the template references a
keyword placeholder name outside this fixed set; otherwise-malformed
templates raise errors that are not converted to `InvalidCommitTemplate`. -/
theorem claim_C8 :
    (∀ (d : CommitMessageDetails) (e : Emojis),
      update_commit_message d e COMMIT_MESSAGE_TEMPLATE =
        .ok (d.conventionalPrefix ++ ' ' :: (e.breaking_emoji ++ (e.type_emoji ++
          (e.scope_emoji ++ ' ' :: (d.description ++ '\n' :: d.body))))))
    ∧ (∀ (d : CommitMessageDetails) (e : Emojis) (tpl n : Str),
        pyFormat (formatFields d e) tpl = .error (.keyError n) →
        update_commit_message d e tpl =
          .error (.invalidCommitTemplate (invalidTplMsg tpl))) := by
  constructor
  · intro d e
    have h : update_commit_message d e COMMIT_MESSAGE_TEMPLATE =
        .ok (d.conventionalPrefix ++ ' ' :: (e.breaking_emoji ++ (e.type_emoji ++
          (e.scope_emoji ++ ' ' :: (d.description ++ '\n' :: (d.body ++ [])))))) := rfl
    rwa [List.append_nil] at h
  · intro d e tpl n h
    unfold update_commit_message
    rw [h]

/-- C8 witness: the default template renders concrete details, and the
unknown placeholder `typo` yields `InvalidCommitTemplate`. -/
theorem claim_C8_witness :
    update_commit_message ⟨lit "feat(api):", lit "test", lit "b", lit "feat", lit "api", false⟩
      ⟨lit "🔥", lit "🔌", []⟩ COMMIT_MESSAGE_TEMPLATE =
      .ok (lit "feat(api): 🔥🔌 test\nb")
    ∧ update_commit_message ⟨lit "feat(api):", lit "test", lit "b", lit "feat", lit "api", false⟩
      ⟨lit "🔥", lit "🔌", []⟩ (lit "\x7btypo\x7d") =
      .error (.invalidCommitTemplate (invalidTplMsg (lit "\x7btypo\x7d"))) := by
  constructor
  · exact (claim_C8.1 ⟨lit "feat(api):", lit "test", lit "b", lit "feat", lit "api", false⟩
      ⟨lit "🔥", lit "🔌", []⟩).trans (by decide)
  · exact claim_C8.2 ⟨lit "feat(api):", lit "test", lit "b", lit "feat", lit "api", false⟩
      ⟨lit "🔥", lit "🔌", []⟩ (lit "\x7btypo\x7d") (lit "typo") (by decide)

/-- C9: one invocation on a commit-message file either succeeds — the
pipeline produces a rendered message, the file now holds exactly that
message, exit code 0 — or the pipeline raises an error, the file holds
its original content untouched, exit code 1.  No state modifies the file
and reports failure. -/
theorem claim_C9 (fm : Str → Str → Bool) (file_content : Str) (toml : Option RawConfig)
    (ats : Bool) (template : Option Str) (esp dbe : Bool) :
    ((process_conventional_commit fm file_content toml ats template esp dbe).1 = 0
      ∧ (∃ msg, process_commit_message fm (strip file_content)
          (from_toml toml ats template COMMIT_TYPES) esp dbe = .ok msg
          ∧ (process_conventional_commit fm file_content toml ats template esp dbe).2 = msg))
    ∨ ((process_conventional_commit fm file_content toml ats template esp dbe).1 = 1
      ∧ (process_conventional_commit fm file_content toml ats template esp dbe).2 = file_content
      ∧ (∃ err, process_commit_message fm (strip file_content)
          (from_toml toml ats template COMMIT_TYPES) esp dbe = .error err)) := by
  cases h : process_commit_message fm (strip file_content)
      (from_toml toml ats template COMMIT_TYPES) esp dbe with
  | ok msg =>
    left
    refine ⟨?_, msg, rfl, ?_⟩ <;> simp [process_conventional_commit, h]
  | error err =>
    right
    refine ⟨?_, ?_, err, rfl⟩ <;> simp [process_conventional_commit, h]

/-! ## Pattern-matcher lemmas -/

theorem get?_append_len {α : Type} (u : List α) (x : α) (r : List α) :
    (u ++ x :: r).get? u.length = some x := by
  induction u with
  | nil => rfl
  | cons a u ih => simpa using ih

theorem get?_append_after {α : Type} (u : List α) (x : α) (r : List α) (k : Nat) :
    (u ++ x :: r).get? (u.length + 1 + k) = r.get? k := by
  induction u with
  | nil =>
    have hidx : ([] : List α).length + 1 + k = k + 1 := by simp; omega
    rw [hidx, List.nil_append, List.get?_cons_succ]
  | cons a u ih =>
    have hc : a :: u ++ x :: r = a :: (u ++ x :: r) := rfl
    have hidx : (a :: u).length + 1 + k = (u.length + 1 + k) + 1 := by
      simp [List.length_cons]; omega
    rw [hc, hidx, List.get?_cons_succ, ih]

theorem takeWhile_word_append (ty rest : Str) (htyw : ∀ c ∈ ty, isWordChar c = true)
    (hrest : ∀ c, rest.head? = some c → isWordChar c = false) :
    (ty ++ rest).takeWhile isWordChar = ty := by
  induction ty with
  | nil =>
    cases rest with
    | nil => rfl
    | cons c r => simp [List.takeWhile_cons, hrest c rfl]
  | cons a ty ih =>
    have ha := htyw a (List.mem_cons_self _ _)
    rw [List.cons_append, List.takeWhile_cons_of_pos (by simp [ha]),
      ih fun c hc => htyw c (List.mem_cons_of_mem _ hc)]

theorem isSpace_eq_false_of_isWordChar {c : Char} (h : isWordChar c = true) :
    isSpace c = false := by
  cases hc : isSpace c with
  | false => rfl
  | true =>
    have hmem : c = ' ' ∨ c = '\t' ∨ c = '\n' ∨ c = '\r' ∨
        c = Char.ofNat 11 ∨ c = Char.ofNat 12 := by
      have h' := hc
      simp only [isSpace, List.contains, List.elem_eq_mem, decide_eq_true_eq,
        List.mem_cons, List.not_mem_nil, or_false] at h'
      exact h'
    rcases hmem with rfl | rfl | rfl | rfl | rfl | rfl <;> simp [isWordChar] at h

theorem strip_eq_self {l : Str}
    (h1 : ∀ c, l.head? = some c → isSpace c = false)
    (h2 : ∀ c, l.getLast? = some c → isSpace c = false) : strip l = l := by
  unfold strip
  cases l with
  | nil => rfl
  | cons a l' =>
    have ha := h1 a rfl
    rw [List.dropWhile_cons_of_neg (by simp [ha])]
    have hrev : ((a :: l').reverse).dropWhile isSpace = (a :: l').reverse := by
      cases hr : (a :: l').reverse with
      | nil => simp at hr
      | cons b r' =>
        have hb : (a :: l').getLast? = some b := by
          rw [← List.head?_reverse, hr]; rfl
        rw [List.dropWhile_cons_of_neg (by simp [h2 b hb])]
    rw [hrev, List.reverse_reverse]

/-- Soundness of the greedy closing-paren search: a result is in range,
closes a non-empty scope, lets the tail of the pattern match, and is the
last position in range to do so. -/
theorem findClose_sound {t : Str} {p : Nat} :
    ∀ {j i : Nat}, findClose t p j = some i →
      p + 2 ≤ i ∧ i ≤ j ∧ t.get? i = some ')' ∧ (tryTail t (i + 1)).isSome = true
      ∧ ∀ k, i < k → k ≤ j → ¬(t.get? k = some ')' ∧ (tryTail t (k + 1)).isSome = true) := by
  intro j
  induction j with
  | zero => intro i h; simp [findClose] at h
  | succ j ih =>
    intro i h
    unfold findClose at h
    by_cases h1 : j + 1 < p + 2
    · rw [if_pos h1] at h; exact absurd h (by simp)
    · rw [if_neg h1] at h
      by_cases h2 : t.get? (j + 1) = some ')' ∧ (tryTail t (j + 1 + 1)).isSome = true
      · rw [if_pos (by exact h2)] at h
        have hi : i = j + 1 := by injection h with h'; omega
        subst hi
        exact ⟨by omega, le_refl _, h2.1, h2.2, fun k hk1 hk2 _ => by omega⟩
      · rw [if_neg (by exact h2)] at h
        obtain ⟨hb1, hb2, hb3, hb4, hb5⟩ := ih h
        refine ⟨hb1, by omega, hb3, hb4, fun k hk1 hk2 hk => ?_⟩
        rcases Nat.lt_or_ge k (j + 1) with hk3 | hk3
        · exact hb5 k hk1 (by omega) hk
        · have : k = j + 1 := by omega
          subst this
          exact h2 hk

/-- Completeness of the greedy closing-paren search: the last viable
closing position in range is found. -/
theorem findClose_eq_some {t : Str} {p i : Nat}
    (hpi : p + 2 ≤ i)
    (hi : t.get? i = some ')') (htail : (tryTail t (i + 1)).isSome = true) :
    ∀ {j : Nat}, i ≤ j →
    (∀ k, i < k → k ≤ j → t.get? k ≠ some ')') →
    findClose t p j = some i := by
  intro j
  induction j with
  | zero => intro hij _; omega
  | succ j ih =>
    intro hij hafter
    unfold findClose
    rw [if_neg (by omega)]
    by_cases hcase : i = j + 1
    · subst hcase
      rw [if_pos ⟨hi, htail⟩]
    · have hne : t.get? (j + 1) ≠ some ')' := hafter (j + 1) (by omega) (le_refl _)
      rw [if_neg (by exact fun hc => hne hc.1)]
      exact ih (by omega) fun k hk1 hk2 => hafter k hk1 (by omega)

theorem splitNl_no_nl {l : Str} (h : '\n' ∉ l) : splitNl l = [l] := by
  induction l with
  | nil => rfl
  | cons c rest ih =>
    have hc : ¬(c = '\n') := fun hh => h (hh ▸ List.mem_cons_self _ _)
    have hr : '\n' ∉ rest := fun hh => h (List.mem_cons_of_mem _ hh)
    simp [splitNl, hc, ih hr]

/-- `BASE_PATTERN` on a well-formed header with a scope: the captured
scope is the bracketed text, provided the description contains no closing
parenthesis (otherwise the greedy `.+` would extend the scope — see the
C3 theorems). -/
theorem matchBase_scope (ty sc d : Str) (brk : Bool)
    (hty : ty ≠ []) (htyw : ∀ c ∈ ty, isWordChar c = true)
    (hsc : sc ≠ []) (hd : ')' ∉ d) :
    matchBase (ty ++ '(' :: (sc ++ ')' :: (cond brk ['!'] [] ++ ':' :: d))) =
      some ⟨ty, some sc, brk, ty.length + 1 + sc.length + cond brk 2 1 + 1⟩ := by
  have hscl : 1 ≤ sc.length := by
    cases sc with
    | nil => exact absurd rfl hsc
    | cons a l => simp
  have hp0 : ¬(ty.length = 0) := by simpa using hty
  cases brk
  case false =>
    show matchBase (ty ++ '(' :: (sc ++ ')' :: ':' :: d)) =
      some ⟨ty, some sc, false, ty.length + 1 + sc.length + 2⟩
    set T : Str := ty ++ '(' :: (sc ++ ')' :: ':' :: d) with hT
    have htw : T.takeWhile isWordChar = ty :=
      takeWhile_word_append ty _ htyw (fun c hc => by
        simp at hc; subst hc; decide)
    have hopen : T.get? ty.length = some '(' := get?_append_len ty '(' _
    have ht' : T = (ty ++ '(' :: sc) ++ ')' :: (':' :: d) := by simp [hT]
    have hu : (ty ++ '(' :: sc).length = ty.length + 1 + sc.length := by
      simp only [List.length_append, List.length_cons]; omega
    have hclose : T.get? (ty.length + 1 + sc.length) = some ')' := by
      rw [ht', ← hu]; exact get?_append_len _ _ _
    have hAfter : ∀ k, T.get? (ty.length + 1 + sc.length + 1 + k) = (':' :: d).get? k :=
      fun k => by rw [ht', ← hu]; exact get?_append_after _ _ _ k
    have h1 : T.get? (ty.length + 1 + sc.length + 1) = some ':' := by
      simpa using hAfter 0
    have htail : tryTail T (ty.length + 1 + sc.length + 1) =
        some (false, ty.length + 1 + sc.length + 2) := by
      unfold tryTail
      rw [if_neg (by rw [h1]; simp), if_pos h1]
    have hTlen : T.length = ty.length + 1 + sc.length + 1 + (1 + d.length) := by
      rw [ht']
      simp only [List.length_append, List.length_cons]
      omega
    have hafterP : ∀ k, ty.length + 1 + sc.length < k → k ≤ T.length - 1 →
        T.get? k ≠ some ')' := by
      intro k hk1 hk2 hkEq
      have hk' : k = (ty ++ '(' :: sc).length + 1 + (k - (ty.length + 1 + sc.length) - 1) := by
        rw [hu]; omega
      rw [ht', hk'] at hkEq
      rw [get?_append_after] at hkEq
      have hmem := List.get?_mem hkEq
      simp at hmem
      exact hd hmem
    have hfind : findClose T ty.length (T.length - 1) = some (ty.length + 1 + sc.length) :=
      findClose_eq_some (by omega) hclose (by rw [htail]; rfl) (by omega) hafterP
    have htake1 : T.take ty.length = ty := List.take_left _ _
    have htk : T.take (ty.length + 1 + sc.length) = ty ++ '(' :: sc := by
      rw [ht', ← hu]; exact List.take_left _ _
    have hdrop : (ty ++ '(' :: sc).drop (ty.length + 1) = sc := by
      have hsplit : ty ++ '(' :: sc = (ty ++ ['(']) ++ sc := by simp
      rw [hsplit]
      exact List.drop_left' (by simp)
    unfold matchBase
    rw [htw]
    unfold matchBaseAt
    rw [if_neg hp0]
    have hscrut : (if T.get? ty.length = some '(' then findClose T ty.length (T.length - 1)
        else none) = some (ty.length + 1 + sc.length) := by
      rw [if_pos hopen]; exact hfind
    rw [hscrut]
    simp [htail, htake1, htk, hdrop]
  case true =>
    show matchBase (ty ++ '(' :: (sc ++ ')' :: '!' :: ':' :: d)) =
      some ⟨ty, some sc, true, ty.length + 1 + sc.length + 3⟩
    set T : Str := ty ++ '(' :: (sc ++ ')' :: '!' :: ':' :: d) with hT
    have htw : T.takeWhile isWordChar = ty :=
      takeWhile_word_append ty _ htyw (fun c hc => by
        simp at hc; subst hc; decide)
    have hopen : T.get? ty.length = some '(' := get?_append_len ty '(' _
    have ht' : T = (ty ++ '(' :: sc) ++ ')' :: ('!' :: ':' :: d) := by simp [hT]
    have hu : (ty ++ '(' :: sc).length = ty.length + 1 + sc.length := by
      simp only [List.length_append, List.length_cons]; omega
    have hclose : T.get? (ty.length + 1 + sc.length) = some ')' := by
      rw [ht', ← hu]; exact get?_append_len _ _ _
    have hAfter : ∀ k, T.get? (ty.length + 1 + sc.length + 1 + k) = ('!' :: ':' :: d).get? k :=
      fun k => by rw [ht', ← hu]; exact get?_append_after _ _ _ k
    have h1 : T.get? (ty.length + 1 + sc.length + 1) = some '!' := by
      simpa using hAfter 0
    have h2 : T.get? (ty.length + 1 + sc.length + 1 + 1) = some ':' := by
      simpa using hAfter 1
    have htail : tryTail T (ty.length + 1 + sc.length + 1) =
        some (true, ty.length + 1 + sc.length + 3) := by
      unfold tryTail
      rw [if_pos h1, if_pos h2]
    have hTlen : T.length = ty.length + 1 + sc.length + 1 + (2 + d.length) := by
      rw [ht']
      simp only [List.length_append, List.length_cons]
      omega
    have hafterP : ∀ k, ty.length + 1 + sc.length < k → k ≤ T.length - 1 →
        T.get? k ≠ some ')' := by
      intro k hk1 hk2 hkEq
      have hk' : k = (ty ++ '(' :: sc).length + 1 + (k - (ty.length + 1 + sc.length) - 1) := by
        rw [hu]; omega
      rw [ht', hk'] at hkEq
      rw [get?_append_after] at hkEq
      have hmem := List.get?_mem hkEq
      simp at hmem
      exact hd hmem
    have hfind : findClose T ty.length (T.length - 1) = some (ty.length + 1 + sc.length) :=
      findClose_eq_some (by omega) hclose (by rw [htail]; rfl) (by omega) hafterP
    have htake1 : T.take ty.length = ty := List.take_left _ _
    have htk : T.take (ty.length + 1 + sc.length) = ty ++ '(' :: sc := by
      rw [ht', ← hu]; exact List.take_left _ _
    have hdrop : (ty ++ '(' :: sc).drop (ty.length + 1) = sc := by
      have hsplit : ty ++ '(' :: sc = (ty ++ ['(']) ++ sc := by simp
      rw [hsplit]
      exact List.drop_left' (by simp)
    unfold matchBase
    rw [htw]
    unfold matchBaseAt
    rw [if_neg hp0]
    have hscrut : (if T.get? ty.length = some '(' then findClose T ty.length (T.length - 1)
        else none) = some (ty.length + 1 + sc.length) := by
      rw [if_pos hopen]; exact hfind
    rw [hscrut]
    simp [htail, htake1, htk, hdrop]

/-- `BASE_PATTERN` on a well-formed header without a scope. -/
theorem matchBase_noscope (ty d : Str) (brk : Bool)
    (hty : ty ≠ []) (htyw : ∀ c ∈ ty, isWordChar c = true) :
    matchBase (ty ++ (cond brk ['!'] [] ++ ':' :: d)) =
      some ⟨ty, none, brk, ty.length + cond brk 1 0 + 1⟩ := by
  have hp0 : ¬(ty.length = 0) := by simpa using hty
  cases brk
  case false =>
    show matchBase (ty ++ ':' :: d) = some ⟨ty, none, false, ty.length + 1⟩
    set T : Str := ty ++ ':' :: d with hT
    have htw : T.takeWhile isWordChar = ty :=
      takeWhile_word_append ty _ htyw (fun c hc => by
        simp at hc; subst hc; decide)
    have h1 : T.get? ty.length = some ':' := get?_append_len ty ':' d
    have htail : tryTail T ty.length = some (false, ty.length + 1) := by
      unfold tryTail
      rw [if_neg (by rw [h1]; simp), if_pos h1]
    have htake1 : T.take ty.length = ty := List.take_left _ _
    unfold matchBase
    rw [htw]
    unfold matchBaseAt
    rw [if_neg hp0]
    have hscrut : (if T.get? ty.length = some '(' then findClose T ty.length (T.length - 1)
        else none) = none := by
      rw [if_neg (by rw [h1]; simp)]
    rw [hscrut]
    simp [htail, htake1]
  case true =>
    show matchBase (ty ++ '!' :: ':' :: d) = some ⟨ty, none, true, ty.length + 2⟩
    set T : Str := ty ++ '!' :: ':' :: d with hT
    have htw : T.takeWhile isWordChar = ty :=
      takeWhile_word_append ty _ htyw (fun c hc => by
        simp at hc; subst hc; decide)
    have h1 : T.get? ty.length = some '!' := get?_append_len ty '!' _
    have h2 : T.get? (ty.length + 1) = some ':' :=
      get?_append_after ty '!' (':' :: d) 0
    have htail : tryTail T ty.length = some (true, ty.length + 2) := by
      unfold tryTail
      rw [if_pos h1, if_pos h2]
    have htake1 : T.take ty.length = ty := List.take_left _ _
    unfold matchBase
    rw [htw]
    unfold matchBaseAt
    rw [if_neg hp0]
    have hscrut : (if T.get? ty.length = some '(' then findClose T ty.length (T.length - 1)
        else none) = none := by
      rw [if_neg (by rw [h1]; simp)]
    rw [hscrut]
    simp [htail, htake1]

/-- `extract_commit_details` on a single-line message that matches. -/
theorem extract_eq (msg : Str) (m : BaseMatch) (hnl : '\n' ∉ msg)
    (hm : matchBase msg = some m) :
    extract_commit_details msg = .ok {
      conventionalPrefix := strip (msg.take m.mEnd),
      description := strip (msg.drop m.mEnd),
      body := [],
      commit_type := m.gtype, scope := m.gscope.getD [], breaking := m.gbreaking } := by
  unfold extract_commit_details
  rw [splitNl_no_nl hnl]
  simp [hm]
  rfl

/-- C6: on a matching header `ty(sc)!: d` or `ty!: d` (the `!` present
iff `brk`), the extractor returns `commit_type` = the captured type,
`scope` = the captured scope text or the empty string when the scope
group is absent, `breaking` iff `!` matched, the matched prefix trimmed,
and the remaining title text trimmed; `d = []` (a header ending at the
colon) is an instance and yields an empty description — a valid result,
not an error.  (The `')' ∉ d` hypothesis keeps the greedy `.+` from
extending the scope; see the C3 theorems.) -/
theorem claim_C6 (ty sc d : Str) (brk : Bool)
    (hty : ty ≠ []) (htyw : ∀ c ∈ ty, isWordChar c = true)
    (hsc : sc ≠ []) (hd : ')' ∉ d)
    (hty_nl : '\n' ∉ ty) (hsc_nl : '\n' ∉ sc) (hd_nl : '\n' ∉ d) :
    extract_commit_details (ty ++ '(' :: (sc ++ ')' :: (cond brk ['!'] [] ++ ':' :: d))) =
      .ok { conventionalPrefix := ty ++ '(' :: (sc ++ ')' :: (cond brk ['!'] [] ++ [':'])),
            description := strip d, body := [],
            commit_type := ty, scope := sc, breaking := brk }
    ∧ extract_commit_details (ty ++ (cond brk ['!'] [] ++ ':' :: d)) =
      .ok { conventionalPrefix := ty ++ (cond brk ['!'] [] ++ [':']),
            description := strip d, body := [],
            commit_type := ty, scope := [], breaking := brk } := by
  have hbang_nl : '\n' ∉ cond brk ['!'] ([] : Str) := by cases brk <;> decide
  have hhead : ∀ (X : Str) c, (ty ++ X).head? = some c → isSpace c = false := by
    intro X c hc
    cases ty with
    | nil => exact absurd rfl hty
    | cons a ty' =>
      have ha : some a = some c := hc
      injection ha with ha
      subst ha
      exact isSpace_eq_false_of_isWordChar (htyw a (List.mem_cons_self _ _))
  constructor
  · set T : Str := ty ++ '(' :: (sc ++ ')' :: (cond brk ['!'] [] ++ ':' :: d)) with hT
    have hnlT : '\n' ∉ T := by
      intro h
      rcases List.mem_append.mp h with h | h
      · exact hty_nl h
      rcases List.mem_cons.mp h with h | h
      · exact absurd h (by decide)
      rcases List.mem_append.mp h with h | h
      · exact hsc_nl h
      rcases List.mem_cons.mp h with h | h
      · exact absurd h (by decide)
      rcases List.mem_append.mp h with h | h
      · exact hbang_nl h
      rcases List.mem_cons.mp h with h | h
      · exact absurd h (by decide)
      · exact hd_nl h
    have hm := matchBase_scope ty sc d brk hty htyw hsc hd
    rw [extract_eq T _ hnlT hm]
    have hpre : T = (ty ++ '(' :: (sc ++ ')' :: (cond brk ['!'] [] ++ [':']))) ++ d := by
      simp [hT]
    have hplen : (ty ++ '(' :: (sc ++ ')' :: (cond brk ['!'] [] ++ [':']))).length =
        ty.length + 1 + sc.length + cond brk 2 1 + 1 := by
      cases brk <;>
        simp only [Bool.cond_true, Bool.cond_false, List.length_append, List.length_cons,
          List.length_nil] <;> omega
    have htk : T.take (ty.length + 1 + sc.length + cond brk 2 1 + 1) =
        ty ++ '(' :: (sc ++ ')' :: (cond brk ['!'] [] ++ [':'])) := by
      rw [hpre]; exact List.take_left' hplen
    have hdp : T.drop (ty.length + 1 + sc.length + cond brk 2 1 + 1) = d := by
      rw [hpre]; exact List.drop_left' hplen
    have hstrip : strip (ty ++ '(' :: (sc ++ ')' :: (cond brk ['!'] [] ++ [':']))) =
        ty ++ '(' :: (sc ++ ')' :: (cond brk ['!'] [] ++ [':'])) := by
      apply strip_eq_self
      · exact hhead _
      · intro c hc
        have hconcat : ty ++ '(' :: (sc ++ ')' :: (cond brk ['!'] [] ++ [':'])) =
            (ty ++ '(' :: (sc ++ ')' :: cond brk ['!'] [])) ++ [':'] := by simp
        rw [hconcat, List.getLast?_concat] at hc
        injection hc with hc
        subst hc
        decide
    simp [htk, hdp, hstrip]
  · set T : Str := ty ++ (cond brk ['!'] [] ++ ':' :: d) with hT
    have hnlT : '\n' ∉ T := by
      intro h
      rcases List.mem_append.mp h with h | h
      · exact hty_nl h
      rcases List.mem_append.mp h with h | h
      · exact hbang_nl h
      rcases List.mem_cons.mp h with h | h
      · exact absurd h (by decide)
      · exact hd_nl h
    have hm := matchBase_noscope ty d brk hty htyw
    rw [extract_eq T _ hnlT hm]
    have hpre : T = (ty ++ (cond brk ['!'] [] ++ [':'])) ++ d := by simp [hT]
    have hplen : (ty ++ (cond brk ['!'] [] ++ [':'])).length =
        ty.length + cond brk 1 0 + 1 := by
      cases brk <;>
        simp only [Bool.cond_true, Bool.cond_false, List.length_append, List.length_cons,
          List.length_nil] <;> omega
    have htk : T.take (ty.length + cond brk 1 0 + 1) = ty ++ (cond brk ['!'] [] ++ [':']) := by
      rw [hpre]; exact List.take_left' hplen
    have hdp : T.drop (ty.length + cond brk 1 0 + 1) = d := by
      rw [hpre]; exact List.drop_left' hplen
    have hstrip : strip (ty ++ (cond brk ['!'] [] ++ [':'])) =
        ty ++ (cond brk ['!'] [] ++ [':']) := by
      apply strip_eq_self
      · exact hhead _
      · intro c hc
        have hconcat : ty ++ (cond brk ['!'] [] ++ [':']) =
            (ty ++ cond brk ['!'] []) ++ [':'] := by simp
        rw [hconcat, List.getLast?_concat] at hc
        injection hc with hc
        subst hc
        decide
    simp [htk, hdp, hstrip]

/-- C6 witness: Scenario-A-style input with a breaking marker. -/
theorem claim_C6_witness :
    extract_commit_details (lit "feat(api)!: add new endpoint") =
      .ok ⟨lit "feat(api)!:", lit "add new endpoint", [], lit "feat", lit "api", true⟩
    ∧ extract_commit_details (lit "feat!: add new endpoint") =
      .ok ⟨lit "feat!:", lit "add new endpoint", [], lit "feat", [], true⟩ := by
  have h := claim_C6 (lit "feat") (lit "api") (lit " add new endpoint") true
    (by decide) (by decide) (by decide) (by decide) (by decide) (by decide) (by decide)
  obtain ⟨h1, h2⟩ := h
  constructor
  · exact ((by decide : extract_commit_details (lit "feat(api)!: add new endpoint") =
      extract_commit_details (lit "feat" ++ '(' :: (lit "api" ++ ')' ::
        (cond true ['!'] [] ++ ':' :: lit " add new endpoint")))).trans h1).trans (by decide)
  · exact ((by decide : extract_commit_details (lit "feat!: add new endpoint") =
      extract_commit_details (lit "feat" ++ (cond true ['!'] [] ++ ':' ::
        lit " add new endpoint"))).trans h2).trans (by decide)

/-- C3 counterexample: on title `feat(a): x): y` the code captures scope
`a): x` — yet the first closing parenthesis that lets the grammar match
is at index 6 (`a`), as witnessed by the viable tail there.  `.+` is
greedy, so the scope runs to the last viable closing parenthesis, not the
first. -/
theorem claim_C3_counterexample :
    extract_commit_details (lit "feat(a): x): y") =
      .ok ⟨lit "feat(a): x):", lit "y", [], lit "feat", lit "a): x", false⟩
    ∧ (lit "feat(a): x): y").get? 6 = some ')'
    ∧ (tryTail (lit "feat(a): x): y") 7).isSome = true
    ∧ lit "a): x" ≠ lit "a" := by decide

/-- C3 as amended: the matcher implements the anchored grammar
`^<type>(\(<scope>\))?(!)?:` with `<type>` a maximal non-empty run of
word characters, but the scope is captured GREEDILY: whenever a scope is
captured, its closing parenthesis (at index `p + 1 + scope.length`) is
viable — `)` there followed by a matching `(!)?:` — and it is the LAST
viable closing position in the title, not the first. -/
theorem claim_C3 (t : Str) (m : BaseMatch) (sc : Str)
    (hm : matchBase t = some m) (hsc : m.gscope = some sc) :
    (t.get? ((t.takeWhile isWordChar).length + 1 + sc.length) = some ')'
      ∧ (tryTail t ((t.takeWhile isWordChar).length + 1 + sc.length + 1)).isSome = true)
    ∧ ∀ k, (t.takeWhile isWordChar).length + 1 + sc.length < k → k ≤ t.length - 1 →
        ¬(t.get? k = some ')' ∧ (tryTail t (k + 1)).isSome = true) := by
  unfold matchBase matchBaseAt at hm
  set p := (t.takeWhile isWordChar).length with hpdef
  by_cases hp : p = 0
  · rw [if_pos hp] at hm
    exact absurd hm (by simp)
  rw [if_neg hp] at hm
  split at hm
  case _ i heq =>
    by_cases hop : t.get? p = some '('
    · rw [if_pos hop] at heq
      have sound := findClose_sound heq
      split at hm
      case _ br e htt =>
        simp only [Option.some.injEq] at hm
        rw [← hm] at hsc
        simp only at hsc
        have hscv : sc = (t.take i).drop (p + 1) := by
          injection hsc.symm with h
        have htnz : t.length ≠ 0 := by
          intro h0
          have ht0 : t = [] := List.length_eq_zero.mp h0
          subst ht0
          simp at hop
        have hil : i ≤ t.length - 1 := sound.2.1
        have hpi : p + 2 ≤ i := sound.1
        have hsclen : sc.length = i - (p + 1) := by
          rw [hscv]
          simp only [List.length_drop, List.length_take]
          omega
        have hieq : p + 1 + sc.length = i := by omega
        rw [hieq]
        exact ⟨⟨sound.2.2.1, sound.2.2.2.1⟩,
          fun k hk1 hk2 => sound.2.2.2.2 k (by omega) hk2⟩
      case _ htt => exact absurd hm (by simp)
    · rw [if_neg hop] at heq
      exact absurd heq (by simp)
  case _ heq =>
    split at hm
    case _ br e htt =>
      simp only [Option.some.injEq] at hm
      rw [← hm] at hsc
      exact absurd hsc (by simp)
    case _ htt => exact absurd hm (by simp)

/-- C3 witness: on `feat(a): x): y` the captured scope `a): x` ends at a
viable closing parenthesis. -/
theorem claim_C3_witness :
    (lit "feat(a): x): y").get?
      (((lit "feat(a): x): y").takeWhile isWordChar).length + 1 + (lit "a): x").length) =
      some ')'
    ∧ (tryTail (lit "feat(a): x): y")
        (((lit "feat(a): x): y").takeWhile isWordChar).length + 1 + (lit "a): x").length + 1)).isSome
      = true :=
  (claim_C3 (lit "feat(a): x): y") ⟨lit "feat", some (lit "a): x"), false, 12⟩ (lit "a): x")
    (by decide) (by decide)).1

-- Concrete evaluations mirroring the repository test suite.
example : splitNl (lit "a\nb") = [lit "a", lit "b"] := by decide
example : splitNl [] = [[]] := by decide
example : matchBase (lit "feat(api)!: x") =
    some ⟨lit "feat", some (lit "api"), true, 11⟩ := by decide
example : matchBase (lit "feat: x") = some ⟨lit "feat", none, false, 5⟩ := by decide
example : matchBase (lit "feat(a): x): y") =
    some ⟨lit "feat", some (lit "a): x"), false, 12⟩ := by decide
example : matchBase (lit "invalid commit message") = none := by decide
example : extract_commit_details (lit "feat(api): add new endpoint\n\nThis adds a new API endpoint") =
    .ok ⟨lit "feat(api):", lit "add new endpoint", lit "This adds a new API endpoint",
         lit "feat", lit "api", false⟩ := by decide

example : (from_toml (some testRaw) true none COMMIT_TYPES).types =
    [(lit "feat", lit "🔥"), (lit "fix", lit "🙌"), (lit "docs", lit "📖"),
     (lit "style", lit "💄"), (lit "refactor", lit "♻️"), (lit "perf", lit "⚡️"),
     (lit "test", lit "✅"), (lit "build", lit "🏗️"), (lit "ci", lit "👷"),
     (lit "config", lit "🔧"), (lit "chore", lit "🏡"), (lit "wip", lit "🚧")] := by decide

example : (from_toml (some testRaw) true none COMMIT_TYPES).scopes =
    some ([(lit "api", lit "🔌"), (lit "ui", lit "🎨")] ++
      (from_toml (some testRaw) true none COMMIT_TYPES).types) := by decide

example : process_commit_message eqFm (lit "feat(api)!: breaking change")
    (from_toml (some testRaw) true none COMMIT_TYPES) false false =
    .ok (lit "🍌🚀 feat(api)!: breaking change") := by decide

example : process_commit_message eqFm (lit "feat: add new feature")
    (from_toml (some testRaw) true none COMMIT_TYPES) false false =
    .ok (lit "🔥 feat: add new feature") := by decide

example : update_commit_message
    ⟨lit "feat(api)", lit "test", [], lit "feat", lit "api", false⟩
    ⟨lit "🔥", lit "🔌", []⟩ (lit "\x7binvalid\x7d") =
    .error (.invalidCommitTemplate (invalidTplMsg (lit "\x7binvalid\x7d"))) := by decide

example : update_commit_message
    ⟨lit "feat(api)", lit "test", [], lit "feat", lit "api", false⟩
    ⟨lit "🔥", lit "🔌", []⟩ (lit "\x7b") =
    .error (.uncaughtFormatError .unterminatedField) := by decide

example : update_commit_message
    ⟨lit "feat(api)", lit "test", lit "test body", lit "feat", lit "api", false⟩
    ⟨lit "🔥", lit "🔌", []⟩
    (lit "\x7bbreaking_emoji\x7d\x7btype_emoji\x7d\x7bscope_emoji\x7d \x7bconventional_prefix\x7d: \x7bdescription\x7d\n\n\x7bbody\x7d") =
    .ok (lit "🔥🔌 feat(api): test\n\ntest body") := by decide

example : get_emojis eqFm ⟨lit "oops", lit "x", [], lit "oops", [], false⟩
    (from_toml none true none COMMIT_TYPES) false false =
    .error (.noConventionalCommitTypeFound (noTypeMsg (lit "oops") COMMIT_TYPES)) := by decide

example : noTypeMsg (lit "oops") COMMIT_TYPES =
    lit "Commit type 'oops' does not have a corresponding emoji.\nAvailable types are: build, chore, ci, config, docs, feat, fix, perf, refactor, style, test, wip" := by decide
